import Mathlib

/-!
Verification of the Arrow C data interface bridge: a shallow embedding of the
exchange structure (exported node), the format-string codec, the exporter, the
importer, and the move/release protocol, together with theorems about round
trips, validation, and the release-exactly-once discipline.

The production bridge sources are not part of this tree (only the test suite
`cpp/src/arrow/c/bridge_test.cc` is), so the bridge operations are modelled
from the specification and pinned to the concrete behaviours the test suite
demands.
-/

namespace ArrowC

/-- A raw memory buffer: its bytes. A null buffer pointer is represented as
`Option.none` at the use sites. -/
abbrev Buffer := List Nat

/-- Identity of a release capsule (modelled as the path of the node in the
exported tree, which makes distinct nodes carry distinct capsules). -/
abbrev CapId := List Nat

/-- Flag bit value for nullable fields (spec: bit 0 = nullable). -/
def kFlagNullable : Nat := 1

/-- Flag bit value for ordered dictionaries (spec: bit 1 = ordered). -/
def kFlagOrdered : Nat := 2

/-! ## Decimal numbers inside format strings -/

/-- The character of a decimal digit. -/
def digitChar (n : Nat) : Char := Char.ofNat (48 + n)

/-- Fueled digit expansion, most significant digit first. -/
def natDigitsGo : Nat → Nat → List Char
  | 0, _ => []
  | fuel + 1, n =>
    if n < 10 then [digitChar n]
    else natDigitsGo fuel (n / 10) ++ [digitChar (n % 10)]

/-- Decimal digit expansion of a natural number. -/
def natDigits (n : Nat) : List Char := natDigitsGo (n + 1) n

/-- Numeric value of a decimal digit character, if it is one. -/
def digitVal (c : Char) : Option Nat :=
  if 48 ≤ c.toNat ∧ c.toNat ≤ 57 then Option.some (c.toNat - 48) else Option.none

/-- Accumulating decimal parser; fails on the first non-digit character. -/
def parseNatAux : Nat → List Char → Option Nat
  | acc, [] => Option.some acc
  | acc, c :: cs =>
    match digitVal c with
    | Option.some d => parseNatAux (acc * 10 + d) cs
    | Option.none => Option.none

/-- Parse a nonempty all-digit string as a natural number. -/
def parseNat : List Char → Option Nat
  | [] => Option.none
  | c :: cs => parseNatAux 0 (c :: cs)

/-- Split a character list at commas (no comma yields one group). -/
def splitComma : List Char → List (List Char)
  | [] => [[]]
  | c :: cs =>
    if c = ',' then [] :: splitComma cs
    else
      match splitComma cs with
      | [] => [[c]]
      | g :: gs => (c :: g) :: gs

/-- Join groups of characters with commas. -/
def joinComma : List (List Char) → List Char
  | [] => []
  | [x] => x
  | x :: y :: ys => x ++ ',' :: joinComma (y :: ys)

/-- Emit a comma-separated list of numbers (union type codes). -/
def emitCodes (codes : List Nat) : List Char := joinComma (codes.map natDigits)

/-- Parse each comma-separated group as a number. -/
def parseCodesAux : List (List Char) → Option (List Nat)
  | [] => Option.some []
  | g :: gs =>
    match parseNat g with
    | Option.none => Option.none
    | Option.some n =>
      match parseCodesAux gs with
      | Option.none => Option.none
      | Option.some ns => Option.some (n :: ns)

/-- Parse a comma-separated list of numbers (union type codes). -/
def parseCodes (cs : List Char) : Option (List Nat) := parseCodesAux (splitComma cs)

/-! ## Logical types -/

mutual
/-- Logical data types of the bridged columnar format (the categories of the
spec's format mini-language, section 6). Fields of nested types carry the
child name and nullability. -/
inductive DataType where
  | null
  | boolean
  | int8
  | uint8
  | int16
  | uint16
  | int32
  | uint32
  | int64
  | uint64
  | float32
  | float64
  | utf8
  | largeUtf8
  | binary
  | largeBinary
  | fixedSizeBinary (byteWidth : Nat)
  | decimal (precision : Nat) (scale : Nat)
  | list (itemName : String) (itemNullable : Bool) (item : DataType)
  | largeList (itemName : String) (itemNullable : Bool) (item : DataType)
  | fixedSizeList (itemName : String) (itemNullable : Bool) (item : DataType) (listSize : Nat)
  | struct (fields : FieldList)
  | map (keyType : DataType) (valueType : DataType)
  | sparseUnion (typeCodes : List Nat) (fields : FieldList)
  | denseUnion (typeCodes : List Nat) (fields : FieldList)
  | dictionary (indexType : DataType) (valueType : DataType) (ordered : Bool)
  deriving DecidableEq, Repr
/-- A list of named, nullability-annotated fields. -/
inductive FieldList where
  | nil
  | cons (name : String) (nullable : Bool) (dtype : DataType) (rest : FieldList)
  deriving DecidableEq, Repr
end

/-- Number of fields in a field list. -/
def FieldList.length : FieldList → Nat
  | .nil => 0
  | .cons _ _ _ rest => rest.length + 1

/-- Whether a type may serve as dictionary index (the fixed-width integer types). -/
def isIndexType : DataType → Bool
  | .int8 | .uint8 | .int16 | .uint16 | .int32 | .uint32 | .int64 | .uint64 => true
  | _ => false

/-- Whether a type is an ordered dictionary type. -/
def isOrderedDict : DataType → Bool
  | .dictionary _ _ ord => ord
  | _ => false

/-- Whether a type is the null type. -/
def isNullT : DataType → Bool
  | .null => true
  | _ => false

/-- Modelled from the spec: the flags the Exporter computes for a node — the
NULLABLE bit exactly when the field is nullable, plus the ORDERED bit for an
ordered dictionary-encoded value (spec sections 4.2 and 6; the production
exporter in `cpp/src/arrow/c/bridge.cc` is not among the sources). -/
def exportFlags (nullable : Bool) (t : DataType) : Nat :=
  (if nullable then kFlagNullable else 0) + (if isOrderedDict t then kFlagOrdered else 0)

/-- The child fields implied by a type: one item field for list-like types, the
declared fields for structs and unions, and the canonical non-nullable
`entries` struct (non-nullable `key`, nullable `value`) for maps. -/
def fieldsOf : DataType → FieldList
  | .list nm nb t => .cons nm nb t .nil
  | .largeList nm nb t => .cons nm nb t .nil
  | .fixedSizeList nm nb t _ => .cons nm nb t .nil
  | .struct fl => fl
  | .map k v =>
    .cons "entries" false
      (.struct (.cons "key" false k (.cons "value" true v .nil))) .nil
  | .sparseUnion _ fl => fl
  | .denseUnion _ fl => fl
  | _ => .nil

/-- Buffer count of a type's category (the spec's section 4.2 table; a
dictionary-encoded value has the buffers of its index type). -/
def bufferCount : DataType → Nat
  | .null => 1
  | .boolean => 2
  | .int8 | .uint8 | .int16 | .uint16 | .int32 | .uint32 | .int64 | .uint64 => 2
  | .float32 | .float64 => 2
  | .fixedSizeBinary _ => 2
  | .decimal _ _ => 2
  | .utf8 | .largeUtf8 | .binary | .largeBinary => 3
  | .list _ _ _ | .largeList _ _ _ => 2
  | .map _ _ => 2
  | .fixedSizeList _ _ _ _ => 1
  | .struct _ => 1
  | .sparseUnion _ _ | .denseUnion _ _ => 3
  | .dictionary idx _ _ => bufferCount idx

/-! ## Format strings -/

/-- Modelled from the spec: the format descriptor codec's emitter (spec
section 4.1 and the section 6 mini-language); a dictionary-encoded value's
node carries the format of its index type. -/
def emitFormat : DataType → List Char
  | .null => ['n']
  | .boolean => ['b']
  | .int8 => ['c']
  | .uint8 => ['C']
  | .int16 => ['s']
  | .uint16 => ['S']
  | .int32 => ['i']
  | .uint32 => ['I']
  | .int64 => ['l']
  | .uint64 => ['L']
  | .float32 => ['f']
  | .float64 => ['g']
  | .utf8 => ['u']
  | .largeUtf8 => ['U']
  | .binary => ['z']
  | .largeBinary => ['Z']
  | .fixedSizeBinary w => 'w' :: ':' :: natDigits w
  | .decimal p s => 'd' :: ':' :: (natDigits p ++ ',' :: natDigits s)
  | .list _ _ _ => ['+', 'l']
  | .largeList _ _ _ => ['+', 'L']
  | .fixedSizeList _ _ _ n => '+' :: 'w' :: ':' :: natDigits n
  | .struct _ => ['+', 's']
  | .map _ _ => ['+', 'm']
  | .sparseUnion codes _ => '+' :: 'u' :: 's' :: ':' :: emitCodes codes
  | .denseUnion codes _ => '+' :: 'u' :: 'd' :: ':' :: emitCodes codes
  | .dictionary idx _ _ => emitFormat idx

/-- Outcome of parsing a format string: either a complete leaf type or a
nested-type tag whose child types come from the child nodes. -/
inductive FmtTag where
  | prim (t : DataType)
  | listF
  | largeListF
  | fixedSizeListF (listSize : Nat)
  | structF
  | mapF
  | sparseUnionF (typeCodes : List Nat)
  | denseUnionF (typeCodes : List Nat)
  deriving DecidableEq, Repr

/-- Parse a one-letter primitive format code. -/
def parseSingle : Char → Option FmtTag
  | 'n' => Option.some (.prim .null)
  | 'b' => Option.some (.prim .boolean)
  | 'c' => Option.some (.prim .int8)
  | 'C' => Option.some (.prim .uint8)
  | 's' => Option.some (.prim .int16)
  | 'S' => Option.some (.prim .uint16)
  | 'i' => Option.some (.prim .int32)
  | 'I' => Option.some (.prim .uint32)
  | 'l' => Option.some (.prim .int64)
  | 'L' => Option.some (.prim .uint64)
  | 'f' => Option.some (.prim .float32)
  | 'g' => Option.some (.prim .float64)
  | 'u' => Option.some (.prim .utf8)
  | 'U' => Option.some (.prim .largeUtf8)
  | 'z' => Option.some (.prim .binary)
  | 'Z' => Option.some (.prim .largeBinary)
  | _ => Option.none

/-- Parse the parameter of a fixed-size binary format code. -/
def parseWidth (rest : List Char) : Option FmtTag :=
  (parseNat rest).map (fun n => .prim (.fixedSizeBinary n))

/-- Parse the two comma-separated parameters of a decimal format code. -/
def parseDecimal (rest : List Char) : Option FmtTag :=
  match splitComma rest with
  | [p, s] =>
    match parseNat p, parseNat s with
    | Option.some p2, Option.some s2 => Option.some (.prim (.decimal p2 s2))
    | _, _ => Option.none
  | _ => Option.none

/-- Parse the rest of a fixed-size-list format code (after the plus sign and
the letter w). -/
def parseFslTail : List Char → Option FmtTag
  | ':' :: rest => (parseNat rest).map .fixedSizeListF
  | _ => Option.none

/-- Parse the rest of a union format code (after the plus sign and the
letter u). -/
def parseUnionTail : List Char → Option FmtTag
  | 's' :: ':' :: rest => (parseCodes rest).map .sparseUnionF
  | 'd' :: ':' :: rest => (parseCodes rest).map .denseUnionF
  | _ => Option.none

/-- Parse the remainder of a nested-type format code (after the plus sign). -/
def parseNested : List Char → Option FmtTag
  | [] => Option.none
  | c :: rest =>
    if c = 'l' then if rest = [] then Option.some .listF else Option.none
    else if c = 'L' then if rest = [] then Option.some .largeListF else Option.none
    else if c = 's' then if rest = [] then Option.some .structF else Option.none
    else if c = 'm' then if rest = [] then Option.some .mapF else Option.none
    else if c = 'w' then parseFslTail rest
    else if c = 'u' then parseUnionTail rest
    else Option.none

/-- Modelled from the spec: the format descriptor codec's parser (spec
section 4.1): single-letter primitive codes, parametrized codes, and nested
prefixes; malformed strings (extra characters, non-numeric parameters, wrong
arity) are rejected. -/
def parseFormat : List Char → Option FmtTag
  | [c] => parseSingle c
  | 'w' :: ':' :: rest => parseWidth rest
  | 'd' :: ':' :: rest => parseDecimal rest
  | '+' :: rest => parseNested rest
  | _ => Option.none

/-! ## The internal array tree -/

mutual
/-- The internal array consumed and produced by the bridge (spec section 6
external collaborator interface): logical type, length, null count (`-1` =
unknown), offset, shareable buffers, children and optional dictionary. -/
inductive ArrayData where
  | mk (dtype : DataType) (length : Nat) (nullCount : Int) (offset : Nat)
      (buffers : List (Option Buffer)) (children : ArrList) (dictionary : ArrOpt)
  deriving DecidableEq, Repr
/-- Children of an internal array. -/
inductive ArrList where
  | nil
  | cons (a : ArrayData) (rest : ArrList)
  deriving DecidableEq, Repr
/-- Optional dictionary of an internal array. -/
inductive ArrOpt where
  | noneA
  | someA (a : ArrayData)
  deriving DecidableEq, Repr
end

/-- The logical type of an internal array. -/
def ArrayData.dtype : ArrayData → DataType
  | .mk t _ _ _ _ _ _ => t

/-- The length of an internal array. -/
def ArrayData.length : ArrayData → Nat
  | .mk _ len _ _ _ _ _ => len

/-- The null count of an internal array (`-1` = unknown). -/
def ArrayData.nullCount : ArrayData → Int
  | .mk _ _ nc _ _ _ _ => nc

/-- The element offset of an internal array. -/
def ArrayData.offset : ArrayData → Nat
  | .mk _ _ _ off _ _ _ => off

/-- The buffers of an internal array. -/
def ArrayData.buffers : ArrayData → List (Option Buffer)
  | .mk _ _ _ _ bufs _ _ => bufs

/-- The children of an internal array. -/
def ArrayData.children : ArrayData → ArrList
  | .mk _ _ _ _ _ kids _ => kids

/-- The dictionary of an internal array. -/
def ArrayData.dictionary : ArrayData → ArrOpt
  | .mk _ _ _ _ _ _ dict => dict

/-- Number of children. -/
def ArrList.length : ArrList → Nat
  | .nil => 0
  | .cons _ rest => rest.length + 1

/-! ## The exported node (struct ArrowArray) -/

mutual
/-- The exported node: the flat, recursively linked C structure of the
exchange format (spec section 3 data model). `format = Option.none` is the
Released state; `capsule` stands for the `release`/`private_data` pair (the
release capsule), `Option.none` meaning a cleared callback. -/
inductive CArr where
  | mk (format : Option (List Char)) (name : String) (metadata : Option String)
      (flags : Nat) (length : Nat) (nullCount : Int) (offset : Nat)
      (buffers : List (Option Buffer)) (children : CList) (dictionary : COpt)
      (capsule : Option CapId)
  deriving DecidableEq, Repr
/-- Children of an exported node. -/
inductive CList where
  | nil
  | cons (c : CArr) (rest : CList)
  deriving DecidableEq, Repr
/-- Optional dictionary of an exported node. -/
inductive COpt where
  | noneC
  | someC (c : CArr)
  deriving DecidableEq, Repr
end

/-- The format string of a node (null when Released). -/
def CArr.format : CArr → Option (List Char)
  | .mk f _ _ _ _ _ _ _ _ _ _ => f

/-- The name of a node. -/
def CArr.name : CArr → String
  | .mk _ nm _ _ _ _ _ _ _ _ _ => nm

/-- The metadata of a node. -/
def CArr.metadata : CArr → Option String
  | .mk _ _ meta _ _ _ _ _ _ _ _ => meta

/-- The flags bitmask of a node. -/
def CArr.flags : CArr → Nat
  | .mk _ _ _ fl _ _ _ _ _ _ _ => fl

/-- The length of a node. -/
def CArr.length : CArr → Nat
  | .mk _ _ _ _ len _ _ _ _ _ _ => len

/-- The null count of a node. -/
def CArr.nullCount : CArr → Int
  | .mk _ _ _ _ _ nc _ _ _ _ _ => nc

/-- The offset of a node. -/
def CArr.offset : CArr → Nat
  | .mk _ _ _ _ _ _ off _ _ _ _ => off

/-- The buffer pointers of a node (`n_buffers` is their number). -/
def CArr.buffers : CArr → List (Option Buffer)
  | .mk _ _ _ _ _ _ _ bufs _ _ _ => bufs

/-- The children of a node (`n_children` is their number). -/
def CArr.children : CArr → CList
  | .mk _ _ _ _ _ _ _ _ kids _ _ => kids

/-- The dictionary of a node. -/
def CArr.dictionary : CArr → COpt
  | .mk _ _ _ _ _ _ _ _ _ dict _ => dict

/-- The release capsule of a node. -/
def CArr.capsule : CArr → Option CapId
  | .mk _ _ _ _ _ _ _ _ _ _ cap => cap

/-- Number of children of a node. -/
def CList.length : CList → Nat
  | .nil => 0
  | .cons _ rest => rest.length + 1

/-- The i-th child of a node, if any. -/
def CList.get? : CList → Nat → Option CArr
  | .nil, _ => Option.none
  | .cons c _, 0 => Option.some c
  | .cons _ rest, i + 1 => rest.get? i

/-- Replace the i-th child of a node. -/
def CList.set : CList → Nat → CArr → CList
  | .nil, _, _ => .nil
  | .cons _ rest, 0, c2 => .cons c2 rest
  | .cons c rest, i + 1, c2 => .cons c (rest.set i c2)

/-- A node is Live iff its format is non-null (spec section 3 invariant). -/
def isLive (c : CArr) : Bool := c.format.isSome

/-! ## The Exporter -/

mutual
/-- Modelled from the spec: the Exporter (spec section 4.2; the production
`ExportArray` of `cpp/src/arrow/c/bridge.cc` is not among the sources, only
its tests). Recursively fills a node: format string from the type, `length`,
`null_count`, `offset` copied from the source array, buffer pointers aliasing
the source buffers, children and dictionary exported recursively, metadata
null, flags from the field's nullability and the dictionary's orderedness,
and a fresh release capsule per node (capsule ids are tree paths here). -/
def exportNode (path : CapId) (name : String) (nullable : Bool) : ArrayData → CArr
  | .mk t len nc off bufs kids dict =>
    .mk (Option.some (emitFormat t)) name Option.none (exportFlags nullable t)
      len nc off bufs
      (exportKids path 1 (fieldsOf t) kids)
      (exportDict path t dict)
      (Option.some path)
/-- Export the children of a node, pairing each child array with its field. -/
def exportKids (path : CapId) (i : Nat) : FieldList → ArrList → CList
  | .cons nm nb _ fr, .cons a kr =>
    .cons (exportNode (path ++ [i]) nm nb a) (exportKids path (i + 1) fr kr)
  | _, _ => .nil
/-- Export the dictionary of a node when its type is dictionary-encoded. -/
def exportDict (path : CapId) (t : DataType) : ArrOpt → COpt
  | .someA d =>
    match t with
    | .dictionary _ _ _ => .someC (exportNode (path ++ [0]) "" true d)
    | _ => .noneC
  | .noneA => .noneC
end

/-! ## Release, Move -/

/-- Combine a node's own fields with the release results of its children and
dictionary: a Released node is a no-op firing nothing; a Live node
transitions to Released (format null, capsule cleared) and fires its
children's capsules, its dictionary's capsules, then its own. -/
def relAssemble (fmt : Option (List Char)) (nm : String) (meta : Option String)
    (fl : Nat) (len : Nat) (nc : Int) (off : Nat) (bufs : List (Option Buffer))
    (kids : CList) (dict : COpt) (cap : Option CapId)
    (rk : CList × List CapId) (rd : COpt × List CapId) : CArr × List CapId :=
  match fmt with
  | Option.none => (.mk Option.none nm meta fl len nc off bufs kids dict cap, [])
  | Option.some _ =>
    (.mk Option.none nm meta fl len nc off bufs rk.1 rd.1 Option.none,
      rk.2 ++ rd.2 ++ cap.toList)

/-- Combine the release results of the first child and of the rest. -/
def relCons (rc : CArr × List CapId) (rr : CList × List CapId) :
    CList × List CapId :=
  (.cons rc.1 rr.1, rc.2 ++ rr.2)

/-- Wrap the release result of a present dictionary. -/
def relSome (rc : CArr × List CapId) : COpt × List CapId := (.someC rc.1, rc.2)

mutual
/-- Modelled from the spec: the release protocol (spec section 3 lifecycle and
section 4.4; `cpp/src/arrow/c/helpers.h` is not among the sources). Releasing
a Live node recursively releases its still-Live children and dictionary
(already-Released ones are skipped), fires its own capsule, and transitions
the node to Released (format null, capsule cleared). Releasing a Released
node is a no-op that fires nothing. Returns the post-state and the list of
capsules fired. -/
def releaseNode : CArr → CArr × List CapId
  | .mk fmt nm meta fl len nc off bufs kids dict cap =>
    relAssemble fmt nm meta fl len nc off bufs kids dict cap
      (releaseKids kids) (releaseDict dict)
/-- Release every child in order, collecting the fired capsules. -/
def releaseKids : CList → CList × List CapId
  | .nil => (.nil, [])
  | .cons c rest => relCons (releaseNode c) (releaseKids rest)
/-- Release the dictionary, if any. -/
def releaseDict : COpt → COpt × List CapId
  | .noneC => (.noneC, [])
  | .someC c => relSome (releaseNode c)
end

mutual
/-- All capsule ids present in a node tree, in release order. -/
def allCaps : CArr → List CapId
  | .mk _ _ _ _ _ _ _ _ kids dict cap =>
    allCapsKids kids ++ allCapsDict dict ++ cap.toList
/-- All capsule ids of a child list. -/
def allCapsKids : CList → List CapId
  | .nil => []
  | .cons c rest => allCaps c ++ allCapsKids rest
/-- All capsule ids of an optional dictionary. -/
def allCapsDict : COpt → List CapId
  | .noneC => []
  | .someC c => allCaps c
end

mutual
/-- Whether every node of the tree is Live. -/
def allLive : CArr → Bool
  | .mk fmt _ _ _ _ _ _ _ kids dict _ =>
    fmt.isSome && allLiveKids kids && allLiveDict dict
/-- Whether every node of a child list's trees is Live. -/
def allLiveKids : CList → Bool
  | .nil => true
  | .cons c rest => allLive c && allLiveKids rest
/-- Whether the optional dictionary's tree is all Live. -/
def allLiveDict : COpt → Bool
  | .noneC => true
  | .someC c => allLive c
end

/-- Modelled from the spec: resetting a node to the Released state after its
contents were moved out (spec section 4.4: clear `format` and the release
capsule; nested children and dictionary pointers stay behind untouched). -/
def markReleased : CArr → CArr
  | .mk _ nm meta fl len nc off bufs kids dict _ =>
    .mk Option.none nm meta fl len nc off bufs kids dict Option.none

/-- Modelled from the spec: `Move(src, dst)` (spec section 4.4;
`ArrowMoveArray` of `cpp/src/arrow/c/helpers.h` is not among the sources):
copies all fields of `src` into `dst` — returned first — then resets `src` to
the Released state — returned second. -/
def ArrowMoveArray (src : CArr) : CArr × CArr := (src, markReleased src)

/-- Rebuild a node with one child slot replaced. -/
def setChild (p : CArr) (i : Nat) (c2 : CArr) : CArr :=
  match p with
  | .mk fmt nm meta fl len nc off bufs kids dict cap =>
    .mk fmt nm meta fl len nc off bufs (kids.set i c2) dict cap

/-- Modelled from the spec: `MoveChildOut(parent, i)` (spec section 4.4):
moves child `i` out to an independent location (returned second) and leaves
the parent's child slot Released so releasing the parent does not re-release
the extracted subtree. -/
def moveChildOut (p : CArr) (i : Nat) : CArr × Option CArr :=
  match p.children.get? i with
  | Option.none => (p, Option.none)
  | Option.some c => (setChild p i (markReleased c), Option.some c)

/-! ## The Importer -/

/-- Modelled from the spec: importer null-count validation (spec section 4.3
step 3): a positive null count requires a validity bitmap unless the length
is zero; `-1` (compute lazily) is always accepted; the null type carries no
validity bitmap and is exempt (its import with positive null count is
accepted by the test suite). -/
def nullCountOk (isNullType : Bool) (nc : Int) (len : Nat)
    (bufs : List (Option Buffer)) : Bool :=
  if isNullType then true
  else if 0 < nc ∧ bufs.head? = Option.some Option.none ∧ len ≠ 0 then false
  else true

/-- Buffer count demanded by a parsed tag (spec section 4.2 table). -/
def tagBufCount : FmtTag → Nat
  | .prim t => bufferCount t
  | .listF | .largeListF | .mapF => 2
  | .fixedSizeListF _ => 1
  | .structF => 1
  | .sparseUnionF _ | .denseUnionF _ => 3

/-- Whether a parsed tag is the null type's. -/
def isNullTag : FmtTag → Bool
  | .prim .null => true
  | _ => false

/-- Child arity demanded by a parsed tag (spec section 4.3 step 4). -/
def arityOk : FmtTag → Nat → Bool
  | .prim _, n => n == 0
  | .listF, n | .largeListF, n | .mapF, n => n == 1
  | .fixedSizeListF _, n => n == 1
  | .structF, _ => true
  | .sparseUnionF codes, n | .denseUnionF codes, n => n == codes.length

/-- Modelled from the spec: the importer's per-node header validation
(spec section 4.3 steps 3 and 4): buffer count against the category table,
child arity, and the null-count rule. -/
def shapeOk (tag : FmtTag) (len : Nat) (nc : Int) (bufs : List (Option Buffer))
    (nKids : Nat) : Bool :=
  (bufs.length == tagBufCount tag) && arityOk tag nKids
    && nullCountOk (isNullTag tag) nc len bufs

/-- Rebuild the logical type from a parsed tag and the reconstructed child
fields (spec section 4.3 step 6); fails when the children do not fit the tag
(e.g. a map whose single child is not a two-field struct). -/
def mkType : FmtTag → FieldList → Option DataType
  | .prim t, .nil => Option.some t
  | .listF, .cons nm nb t .nil => Option.some (.list nm nb t)
  | .largeListF, .cons nm nb t .nil => Option.some (.largeList nm nb t)
  | .fixedSizeListF n, .cons nm nb t .nil => Option.some (.fixedSizeList nm nb t n)
  | .structF, fl => Option.some (.struct fl)
  | .mapF, .cons _ _ (.struct (.cons _ _ k (.cons _ _ v .nil))) .nil =>
    Option.some (.map k v)
  | .sparseUnionF codes, fl => Option.some (.sparseUnion codes fl)
  | .denseUnionF codes, fl => Option.some (.denseUnion codes fl)
  | _, _ => Option.none

/-- Assemble one imported node from its own header fields, the outcome of
importing its children, and the outcome of importing its dictionary (absent
when the node carries none): reject a Released node; reject an unparseable
format; validate buffer count, null count and child arity; a present
dictionary requires an integer index type, its orderedness read from flag
bit 1; build the internal array aliasing the node's buffers. -/
def assembleImport (fmt : Option (List Char)) (flags : Nat) (len : Nat)
    (nc : Int) (off : Nat) (bufs : List (Option Buffer)) (nKids : Nat)
    (kres : Except String (ArrList × FieldList))
    (dres : Option (Except String ArrayData)) : Except String ArrayData :=
  match fmt with
  | Option.none => Except.error "released"
  | Option.some f =>
    match parseFormat f with
    | Option.none => Except.error "invalid format string"
    | Option.some tag =>
      if shapeOk tag len nc bufs nKids then
        match kres with
        | Except.error e => Except.error e
        | Except.ok (karr, kfl) =>
          match dres with
          | Option.none =>
            match mkType tag kfl with
            | Option.none => Except.error "invalid child types"
            | Option.some t => Except.ok (.mk t len nc off bufs karr .noneA)
          | Option.some dres2 =>
            match tag with
            | FmtTag.prim t =>
              if isIndexType t then
                match dres2 with
                | Except.error e => Except.error e
                | Except.ok dv =>
                  Except.ok (.mk (.dictionary t dv.dtype (Nat.testBit flags 1))
                    len nc off bufs karr (.someA dv))
              else Except.error "invalid dictionary index type"
            | _ => Except.error "invalid dictionary index type"
      else Except.error "invalid shape"

/-- Chain one imported child in front of the remaining imported children,
collecting the reconstructed field (child name and NULLABLE flag from the
child node, type from the imported array). -/
def combineKid (res : Except String ArrayData) (nm : String) (flags : Nat)
    (rest : Except String (ArrList × FieldList)) :
    Except String (ArrList × FieldList) :=
  match res with
  | Except.error e => Except.error e
  | Except.ok a =>
    match rest with
    | Except.error e => Except.error e
    | Except.ok (karr, kfl) =>
      Except.ok (.cons a karr, .cons nm (Nat.testBit flags 0) a.dtype kfl)

mutual
/-- Modelled from the spec: the Importer core (spec section 4.3 steps 1-6; the
production `ImportArray` of `cpp/src/arrow/c/bridge.cc` is not among the
sources, only its tests): recursively import children and dictionary and
assemble the node by `assembleImport`. -/
def importC : CArr → Except String ArrayData
  | .mk fmt _nm _meta flags len nc off bufs kids dict _cap =>
    assembleImport fmt flags len nc off bufs kids.length
      (importKids kids) (importDict dict)
/-- Import every child, collecting the arrays and the reconstructed fields. -/
def importKids : CList → Except String (ArrList × FieldList)
  | .nil => Except.ok (.nil, .nil)
  | .cons c rest => combineKid (importC c) c.name c.flags (importKids rest)
/-- Import the dictionary when present. -/
def importDict : COpt → Option (Except String ArrayData)
  | .noneC => Option.none
  | .someC d => Option.some (importC d)
end

/-- Result of a full import: the outcome, the consumed input node, the
capsules fired during the import itself, and the capsules that will fire when
the last reference to the produced array is dropped. -/
structure ImportResult where
  result : Except String ArrayData
  consumed : CArr
  firedNow : List CapId
  deferredFire : List CapId
  deriving Repr

/-- Modelled from the spec: the full import entry point (spec section 4.3):
the input node is consumed (observed Released) in every case; on a validation
failure the node is released on the spot (full cleanup of already-installed
children); on success the release is deferred to the drop of the last
reference to the produced array — except for the null type, which aliases no
memory and is released immediately. -/
def ImportArray (c : CArr) : ImportResult :=
  match importC c with
  | Except.error e => ⟨Except.error e, markReleased c, (releaseNode c).2, []⟩
  | Except.ok a =>
    if c.format = Option.some ['n'] then
      ⟨Except.ok a, markReleased c, (releaseNode c).2, []⟩
    else
      ⟨Except.ok a, markReleased c, [], (releaseNode c).2⟩

deriving instance DecidableEq for Except

/-! ## Well-formed internal arrays -/

/-- Extra per-type invariants: unions carry a nonempty type-code list with one
code per field. -/
def codesOk : DataType → Bool
  | .sparseUnion codes fl | .denseUnion codes fl =>
    !codes.isEmpty && codes.length == fl.length
  | _ => true

mutual
/-- Well-formed internal arrays: the shape invariants the producing library
guarantees (spec section 3 invariants and the section 4.2 table) — buffer
count matching the type's category, a consistent null count, children
matching the type's fields, and a dictionary present exactly for
dictionary-encoded types with an integer index. -/
def wfArr : ArrayData → Bool
  | .mk t len nc _off bufs kids dict =>
    (bufs.length == bufferCount t)
    && nullCountOk (isNullT t) nc len bufs
    && codesOk t
    && wfKids (fieldsOf t) kids
    && wfDict t dict
/-- Children are checked in lockstep against the type's fields: same count,
each child's type equal to its field's type, each child well-formed. -/
def wfKids : FieldList → ArrList → Bool
  | .nil, .nil => true
  | .cons _ _ t fr, .cons a kr => (a.dtype == t) && wfArr a && wfKids fr kr
  | _, _ => false
/-- A dictionary is present iff the type is dictionary-encoded, with an
integer index type and matching value type. -/
def wfDict : DataType → ArrOpt → Bool
  | .dictionary idx val _, .someA d => isIndexType idx && (d.dtype == val) && wfArr d
  | .dictionary _ _ _, .noneA => false
  | _, .someA _ => false
  | _, .noneA => true
end

/-! ## Logical values (an observer for semantics claims) -/

/-- Byte `i` of a buffer (out-of-range reads as zero). -/
def byteAt (b : Buffer) (i : Nat) : Nat := b.getD i 0

/-- Little-endian read of `width` bytes starting at byte `pos`. -/
def readLE (b : Buffer) (pos : Nat) : Nat → Nat
  | 0 => 0
  | w + 1 => byteAt b pos + 256 * readLE b (pos + 1) w

/-- Bit `i` of a bit-packed buffer (LSB numbering within each byte). -/
def bitAt (b : Buffer) (i : Nat) : Bool := Nat.testBit (byteAt b (i / 8)) (i % 8)

/-- Two's complement reading of an unsigned value of `width` bytes. -/
def toSigned (width : Nat) (n : Nat) : Int :=
  if n < 2 ^ (8 * width - 1) then (n : Int) else (n : Int) - 2 ^ (8 * width)

/-- The buffer at index `i`, empty if absent or null. -/
def dataBuf (bufs : List (Option Buffer)) (i : Nat) : Buffer :=
  (bufs.getD i Option.none).getD []

/-- Consecutive bytes `[s, e)` of a buffer. -/
def sliceBytes (b : Buffer) (s e : Nat) : List Nat := (b.drop s).take (e - s)

mutual
/-- Logical values of arrays. -/
inductive Value where
  | nullV
  | intV (i : Int)
  | boolV (b : Bool)
  | bytesV (bs : List Nat)
  | listV (vs : VList)
  | structV (vs : VList)
  deriving DecidableEq, Repr
/-- A list of logical values. -/
inductive VList where
  | nil
  | cons (v : Value) (rest : VList)
  deriving DecidableEq, Repr
end

/-- Build a `VList` from a plain list (readability helper). -/
def vals : List Value → VList
  | [] => .nil
  | v :: vs => .cons v (vals vs)

/-- Byte width of a fixed-width integer type. -/
def intByteWidth : DataType → Nat
  | .int8 | .uint8 => 1
  | .int16 | .uint16 => 2
  | .int32 | .uint32 => 4
  | .int64 | .uint64 => 8
  | _ => 0

/-- Whether a fixed-width integer type is signed. -/
def isSignedInt : DataType → Bool
  | .int8 | .int16 | .int32 | .int64 => true
  | _ => false

mutual
/-- The logical value of element `i` of an array — the semantics the spec's
layout tables describe: the validity bit is read at `offset + i`; fixed-width
data at index `offset + i` of the data buffer; variable-size and list data
through the offsets buffer entries at `offset + i` and `offset + i + 1`
(children apply their own offsets independently); struct fields at element
`offset + i` of each child. `fuel` bounds the recursion. -/
def elemAt : Nat → ArrayData → Nat → Option Value
  | 0, _, _ => Option.none
  | fuel + 1, .mk t _len _nc off bufs kids _dict, i =>
    let valid :=
      match bufs.head? with
      | Option.some (Option.some bm) => bitAt bm (off + i)
      | _ => true
    if valid = false then Option.some Value.nullV
    else
      match t, kids with
      | .null, _ => Option.some Value.nullV
      | .boolean, _ => Option.some (Value.boolV (bitAt (dataBuf bufs 1) (off + i)))
      | .int8, _ | .uint8, _ | .int16, _ | .uint16, _
      | .int32, _ | .uint32, _ | .int64, _ | .uint64, _ =>
        let w := intByteWidth t
        let n := readLE (dataBuf bufs 1) ((off + i) * w) w
        Option.some (Value.intV (if isSignedInt t then toSigned w n else (n : Int)))
      | .fixedSizeBinary w, _ =>
        Option.some (Value.bytesV (sliceBytes (dataBuf bufs 1) ((off + i) * w) ((off + i + 1) * w)))
      | .utf8, _ | .binary, _ =>
        let offs := dataBuf bufs 1
        Option.some (Value.bytesV (sliceBytes (dataBuf bufs 2)
          (readLE offs ((off + i) * 4) 4) (readLE offs ((off + i + 1) * 4) 4)))
      | .largeUtf8, _ | .largeBinary, _ =>
        let offs := dataBuf bufs 1
        Option.some (Value.bytesV (sliceBytes (dataBuf bufs 2)
          (readLE offs ((off + i) * 8) 8) (readLE offs ((off + i + 1) * 8) 8)))
      | .list _ _ _, ArrList.cons ch _ =>
        let offs := dataBuf bufs 1
        let s := readLE offs ((off + i) * 4) 4
        let e := readLE offs ((off + i + 1) * 4) 4
        (elemsRange fuel ch s (e - s)).map Value.listV
      | .largeList _ _ _, ArrList.cons ch _ =>
        let offs := dataBuf bufs 1
        let s := readLE offs ((off + i) * 8) 8
        let e := readLE offs ((off + i + 1) * 8) 8
        (elemsRange fuel ch s (e - s)).map Value.listV
      | .fixedSizeList _ _ _ n, ArrList.cons ch _ =>
        (elemsRange fuel ch ((off + i) * n) n).map Value.listV
      | .struct _, _ => (kidElems fuel kids (off + i)).map Value.structV
      | _, _ => Option.none
  termination_by structural fuel => fuel
/-- Logical values of `cnt` consecutive child elements starting at raw
position `s` (the child applies its own offset). -/
def elemsRange : Nat → ArrayData → Nat → Nat → Option VList
  | 0, _, _, _ => Option.none
  | _ + 1, _, _, 0 => Option.some .nil
  | fuel + 1, c, s, cnt + 1 =>
    match elemAt fuel c s with
    | Option.none => Option.none
    | Option.some v =>
      match elemsRange fuel c (s + 1) cnt with
      | Option.none => Option.none
      | Option.some vs => Option.some (.cons v vs)
  termination_by structural fuel _ _ _ => fuel
/-- The `i`-th logical element of every child, in order. -/
def kidElems : Nat → ArrList → Nat → Option VList
  | 0, _, _ => Option.none
  | _ + 1, .nil, _ => Option.some .nil
  | fuel + 1, .cons a rest, i =>
    match elemAt fuel a i with
    | Option.none => Option.none
    | Option.some v =>
      match kidElems fuel rest i with
      | Option.none => Option.none
      | Option.some vs => Option.some (.cons v vs)
  termination_by structural fuel _ _ => fuel
end

/-- All logical values of an array, under the given recursion fuel. -/
def valuesOf (fuel : Nat) (a : ArrayData) : Option VList :=
  elemsRange fuel a 0 a.length

/-! ## Null count resolution -/

/-- The lazily computed null count: the number of clear validity bits in
positions `[offset, offset + length)`, zero when there is no validity bitmap
(spec section 4.3 step 3). -/
def computedNullCount (bufs : List (Option Buffer)) (off len : Nat) : Nat :=
  match bufs.head? with
  | Option.some (Option.some bm) =>
    ((List.range len).filter (fun i => !bitAt bm (off + i))).length
  | _ => 0

/-- Resolve a deferred (`-1`) null count to the computed one; an exact null
count is left unchanged. Two arrays are logically equal in null count iff
they resolve to the same value. -/
def resolveNullCount : ArrayData → ArrayData
  | .mk t len nc off bufs kids dict =>
    if nc = -1 then .mk t len (computedNullCount bufs off len) off bufs kids dict
    else .mk t len nc off bufs kids dict

/-! ## Collecting the nodes of an exported tree -/

mutual
/-- Every node of a node tree (the node itself, its children's trees and its
dictionary's tree). -/
def nodesOf : CArr → List CArr
  | .mk fmt nm meta fl len nc off bufs kids dict cap =>
    CArr.mk fmt nm meta fl len nc off bufs kids dict cap ::
      (nodesOfKids kids ++ nodesOfDict dict)
/-- Every node of a child list's trees. -/
def nodesOfKids : CList → List CArr
  | .nil => []
  | .cons c rest => nodesOf c ++ nodesOfKids rest
/-- Every node of an optional dictionary's tree. -/
def nodesOfDict : COpt → List CArr
  | .noneC => []
  | .someC c => nodesOf c
end

/-! ## Concrete fixtures (from the test suite's buffers) -/

/-- The test suite's `data_buffer1`: bytes 1 to 16. -/
def dataBuffer1 : Buffer := [1, 2, 3, 4, 5, 6, 7, 8, 9, 10, 11, 12, 13, 14, 15, 16]

/-- The test suite's `bits_buffer1`: twice 0xed, i.e. bits
[true, false, true, true, false, true, true, true] twice. -/
def bitsBuffer1 : Buffer := [237, 237]

/-- The test suite's `list_offsets_buffer1` [0, 2, 2, 5, 6, 8] as raw
little-endian 32-bit entries. -/
def listOffsets1 : Buffer :=
  [0, 0, 0, 0, 2, 0, 0, 0, 2, 0, 0, 0, 5, 0, 0, 0, 6, 0, 0, 0, 8, 0, 0, 0]

/-- The test suite's `string_offsets_buffer1` [0, 3, 3, 6, 10] as raw
little-endian 32-bit entries. -/
def stringOffsets1 : Buffer :=
  [0, 0, 0, 0, 3, 0, 0, 0, 3, 0, 0, 0, 6, 0, 0, 0, 10, 0, 0, 0]

/-- The test suite's `string_data_buffer1`: the bytes of "foobarquux". -/
def stringData1 : Buffer := [102, 111, 111, 98, 97, 114, 113, 117, 117, 120]

/-- The 8-bit integer array [1, 2, null, -3]: validity bits 1101, data bytes
[1, 2, 0, 253] (the null slot unspecified, -3 in two's complement). -/
def arrayInt8Nulls : ArrayData :=
  .mk .int8 4 1 0 [Option.some [11], Option.some [1, 2, 0, 253]] .nil .noneA

/-- A list-of-int8 array with a null and a non-zero child offset. -/
def arrayListEx : ArrayData :=
  .mk (.list "item" true .int8) 3 1 0
    [Option.some [11], Option.some listOffsets1]
    (.cons (.mk .int8 8 0 1 [Option.none, Option.some dataBuffer1] .nil .noneA) .nil)
    .noneA

/-- An ordered dictionary array: utf8 values, int8 indices. -/
def arrayDictEx : ArrayData :=
  .mk (.dictionary .int8 .utf8 true) 3 0 0 [Option.none, Option.some [1, 2, 0]]
    .nil
    (.someA (.mk .utf8 3 0 0
      [Option.none, Option.some stringOffsets1, Option.some stringData1] .nil .noneA))

/-- A childless import-test node with the given format, length, null count,
offset and buffers (the test suite's FillPrimitive shape). -/
def primNode (fmt : List Char) (len : Nat) (nc : Int) (off : Nat)
    (bufs : List (Option Buffer)) : CArr :=
  .mk (Option.some fmt) "" Option.none 1 len nc off bufs .nil .noneC
    (Option.some [0])

/-- The C9 list scenario's child node: int8, length 8, offset 2. -/
def c9listChild : CArr :=
  .mk (Option.some ['c']) "item" Option.none 1 8 0 2
    [Option.none, Option.some dataBuffer1] .nil .noneC (Option.some [1])

/-- The C9 list scenario's parent node: list, length 4, offset 1, offsets
[0, 2, 2, 5, 6, 8]. -/
def c9listNode : CArr :=
  .mk (Option.some ['+', 'l']) "" Option.none 1 4 0 1
    [Option.none, Option.some listOffsets1] (.cons c9listChild .nil) .noneC
    (Option.some [])

/-- The C9 fixed-size-list scenario's child node: int8, length 9, offset 2. -/
def c9fslChild : CArr :=
  .mk (Option.some ['c']) "item" Option.none 1 9 0 2
    [Option.none, Option.some dataBuffer1] .nil .noneC (Option.some [1])

/-- The C9 fixed-size-list scenario's parent: size-3 lists, length 3,
offset 1. -/
def c9fslNode : CArr :=
  .mk (Option.some ['+', 'w', ':', '3']) "" Option.none 1 3 0 1
    [Option.none] (.cons c9fslChild .nil) .noneC (Option.some [])

/-- The C9 struct scenario's first child: utf8 over "foobarquux", offset 0. -/
def c9structChild1 : CArr :=
  .mk (Option.some ['u']) "strs" Option.none 1 4 0 0
    [Option.none, Option.some stringOffsets1, Option.some stringData1]
    .nil .noneC (Option.some [1])

/-- The C9 struct scenario's second child: int8, length 4, offset 2. -/
def c9structChild2 : CArr :=
  .mk (Option.some ['c']) "ints" Option.none 1 4 0 2
    [Option.none, Option.some dataBuffer1] .nil .noneC (Option.some [2])

/-- The C9 struct scenario's parent: struct of (strs, ints), length 3,
offset 1. -/
def c9structNode : CArr :=
  .mk (Option.some ['+', 's']) "" Option.none 1 3 0 1
    [Option.none] (.cons c9structChild1 (.cons c9structChild2 .nil)) .noneC
    (Option.some [])

/-! ## Theorems: format codec round trips -/

theorem digitVal_digitChar : ∀ d < 10, digitVal (digitChar d) = Option.some d := by
  decide

theorem digitChar_ne_comma : ∀ d < 10, digitChar d ≠ ',' := by
  decide

theorem parseNatAux_append (xs ys : List Char) (acc : Nat) :
    parseNatAux acc (xs ++ ys)
      = (parseNatAux acc xs).bind (fun m => parseNatAux m ys) := by
  induction xs generalizing acc with
  | nil => simp [parseNatAux]
  | cons c cs ih =>
    simp only [List.cons_append, parseNatAux]
    cases digitVal c with
    | none => simp
    | some d => simp [ih]

theorem natDigitsGo_parse : ∀ fuel n acc, n < fuel →
    ∃ p, 0 < p ∧ parseNatAux acc (natDigitsGo fuel n) = Option.some (acc * p + n) := by
  intro fuel
  induction fuel with
  | zero => intro n acc h; exact absurd h (Nat.not_lt_zero n)
  | succ fuel ih =>
    intro n acc h
    by_cases h10 : n < 10
    · refine ⟨10, by omega, ?_⟩
      simp [natDigitsGo, h10, parseNatAux, digitVal_digitChar n h10]
    · have hd : n / 10 < fuel := by omega
      obtain ⟨p, hp, hparse⟩ := ih (n / 10) acc hd
      refine ⟨p * 10, by positivity, ?_⟩
      rw [natDigitsGo]
      simp only [h10, if_false, parseNatAux_append, hparse, Option.some_bind,
        parseNatAux, digitVal_digitChar (n % 10) (by omega)]
      have hmul : acc * (p * 10) = acc * p * 10 := by ring
      congr 1
      rw [hmul]
      omega

theorem natDigitsGo_ne_nil (fuel n : Nat) : natDigitsGo (fuel + 1) n ≠ [] := by
  rw [natDigitsGo]
  split <;> simp

theorem parseNat_natDigits (n : Nat) : parseNat (natDigits n) = Option.some n := by
  obtain ⟨p, hp, hparse⟩ := natDigitsGo_parse (n + 1) n 0 (by omega)
  have hne := natDigitsGo_ne_nil n n
  rw [natDigits]
  cases hl : natDigitsGo (n + 1) n with
  | nil => exact absurd hl hne
  | cons c cs =>
    rw [hl] at hparse
    rw [parseNat]
    simpa using hparse

theorem natDigitsGo_mem : ∀ fuel n c, c ∈ natDigitsGo fuel n →
    ∃ d, d < 10 ∧ c = digitChar d := by
  intro fuel
  induction fuel with
  | zero => intro n c hc; simp [natDigitsGo] at hc
  | succ fuel ih =>
    intro n c hc
    rw [natDigitsGo] at hc
    by_cases h10 : n < 10
    · simp [h10] at hc
      exact ⟨n, h10, hc⟩
    · simp only [h10, if_false, List.mem_append, List.mem_singleton] at hc
      cases hc with
      | inl hmem => exact ih (n / 10) c hmem
      | inr heq => exact ⟨n % 10, by omega, heq⟩

theorem natDigits_no_comma (n : Nat) : ∀ c ∈ natDigits n, c ≠ ',' := by
  intro c hc
  obtain ⟨d, hd, rfl⟩ := natDigitsGo_mem (n + 1) n c hc
  exact digitChar_ne_comma d hd

theorem splitComma_no_comma (xs : List Char) (h : ∀ c ∈ xs, c ≠ ',') :
    splitComma xs = [xs] := by
  induction xs with
  | nil => rfl
  | cons c cs ih =>
    have hc : c ≠ ',' := h c (by simp)
    have ih2 := ih (fun c2 h2 => h c2 (by simp [h2]))
    simp [splitComma, hc, ih2]

theorem splitComma_append (xs ys : List Char) (h : ∀ c ∈ xs, c ≠ ',') :
    splitComma (xs ++ ',' :: ys) = xs :: splitComma ys := by
  induction xs with
  | nil => simp [splitComma]
  | cons c cs ih =>
    have hc : c ≠ ',' := h c (by simp)
    have ih2 := ih (fun c2 h2 => h c2 (by simp [h2]))
    simp [splitComma, hc, ih2]

theorem splitComma_joinComma : ∀ xss, xss ≠ [] →
    (∀ xs ∈ xss, ∀ c ∈ xs, c ≠ ',') → splitComma (joinComma xss) = xss := by
  intro xss
  induction xss with
  | nil => simp
  | cons x xss ih =>
    intro _ h
    cases xss with
    | nil => simp [joinComma, splitComma_no_comma x (h x (by simp))]
    | cons y ys =>
      rw [joinComma, splitComma_append x _ (h x (by simp)),
        ih (by simp) (fun xs hxs => h xs (by simp [hxs]))]

theorem parseCodesAux_digits : ∀ codes : List Nat,
    parseCodesAux (codes.map natDigits) = Option.some codes := by
  intro codes
  induction codes with
  | nil => rfl
  | cons n ns ih => simp [parseCodesAux, parseNat_natDigits, ih]

theorem parseCodes_emitCodes (codes : List Nat) (h : codes ≠ []) :
    parseCodes (emitCodes codes) = Option.some codes := by
  rw [parseCodes, emitCodes,
    splitComma_joinComma _ (by simpa using h)
      (fun xs hxs c hc => by
        obtain ⟨n, _, rfl⟩ := List.mem_map.mp hxs
        exact natDigits_no_comma n c hc)]
  exact parseCodesAux_digits codes

/-! ## Theorems: parsing emitted formats -/

theorem parseFormat_emit_fsb (w : Nat) :
    parseFormat (emitFormat (DataType.fixedSizeBinary w))
      = Option.some (.prim (.fixedSizeBinary w)) := by
  simp [emitFormat, parseFormat, parseWidth, parseNat_natDigits]

theorem parseFormat_emit_decimal (p s : Nat) :
    parseFormat (emitFormat (DataType.decimal p s))
      = Option.some (.prim (.decimal p s)) := by
  have hsplit : splitComma (natDigits p ++ ',' :: natDigits s)
      = [natDigits p, natDigits s] := by
    rw [splitComma_append _ _ (natDigits_no_comma p),
      splitComma_no_comma _ (natDigits_no_comma s)]
  simp [emitFormat, parseFormat, parseDecimal, hsplit, parseNat_natDigits]

theorem parseFormat_emit_fsl (nm : String) (nb : Bool) (t : DataType) (n : Nat) :
    parseFormat (emitFormat (DataType.fixedSizeList nm nb t n))
      = Option.some (.fixedSizeListF n) := by
  simp [emitFormat, parseFormat, parseNested, parseFslTail, parseNat_natDigits]

theorem parseFormat_emit_sparseUnion (codes : List Nat) (fl : FieldList)
    (h : codes ≠ []) :
    parseFormat (emitFormat (DataType.sparseUnion codes fl))
      = Option.some (.sparseUnionF codes) := by
  simp [emitFormat, parseFormat, parseNested, parseUnionTail, parseCodes_emitCodes codes h]

theorem parseFormat_emit_denseUnion (codes : List Nat) (fl : FieldList)
    (h : codes ≠ []) :
    parseFormat (emitFormat (DataType.denseUnion codes fl))
      = Option.some (.denseUnionF codes) := by
  simp [emitFormat, parseFormat, parseNested, parseUnionTail, parseCodes_emitCodes codes h]

theorem parseFormat_emit_index (t : DataType) (h : isIndexType t = true) :
    parseFormat (emitFormat t) = Option.some (.prim t) := by
  cases t <;> simp [isIndexType] at h <;> rfl

theorem isNullTag_of_index (t : DataType) (h : isIndexType t = true) :
    isNullTag (FmtTag.prim t) = false := by
  cases t <;> simp [isIndexType] at h <;> rfl

/-! ## Theorems: exported flags and projections -/

theorem testBit_exportFlags0 (nb : Bool) (t : DataType) :
    Nat.testBit (exportFlags nb t) 0 = nb := by
  rw [exportFlags, kFlagNullable, kFlagOrdered]
  cases nb <;> cases h : isOrderedDict t <;> decide

theorem testBit_exportFlags1 (nb : Bool) (t : DataType) :
    Nat.testBit (exportFlags nb t) 1 = isOrderedDict t := by
  rw [exportFlags, kFlagNullable, kFlagOrdered]
  cases nb <;> cases h : isOrderedDict t <;> decide

theorem exportNode_name (p : CapId) (nm : String) (nb : Bool) (a : ArrayData) :
    (exportNode p nm nb a).name = nm := by
  cases a
  simp [exportNode, CArr.name]

theorem exportNode_flags (p : CapId) (nm : String) (nb : Bool) (a : ArrayData) :
    (exportNode p nm nb a).flags = exportFlags nb a.dtype := by
  cases a
  simp [exportNode, CArr.flags, ArrayData.dtype]

theorem exportNode_metadata (p : CapId) (nm : String) (nb : Bool) (a : ArrayData) :
    (exportNode p nm nb a).metadata = Option.none := by
  cases a
  simp [exportNode, CArr.metadata]

theorem exportNode_format (p : CapId) (nm : String) (nb : Bool) (a : ArrayData) :
    (exportNode p nm nb a).format = Option.some (emitFormat a.dtype) := by
  cases a
  simp [exportNode, CArr.format, ArrayData.dtype]

theorem exportKids_length : ∀ (fl : FieldList) (ks : ArrList) (path : CapId) (i : Nat),
    wfKids fl ks = true → (exportKids path i fl ks).length = fl.length
  | .nil, .nil, _, _, _ => rfl
  | .nil, .cons _ _, _, _, h => by simp [wfKids] at h
  | .cons _ _ _ _, .nil, _, _, h => by simp [wfKids] at h
  | .cons nm nb t fr, .cons a kr, path, i, h => by
    simp only [wfKids, Bool.and_eq_true] at h
    simp [exportKids, CList.length, FieldList.length,
      exportKids_length fr kr path (i + 1) h.2]

/-! ## Theorems: the export-import round trip -/

theorem rt_noDict (t : DataType) (tag : FmtTag) (path : CapId) (nm : String)
    (nb : Bool) (len : Nat) (nc : Int) (off : Nat) (bufs : List (Option Buffer))
    (kids : ArrList)
    (htag : parseFormat (emitFormat t) = Option.some tag)
    (hnt : isNullTag tag = isNullT t)
    (hbc : tagBufCount tag = bufferCount t)
    (harity : arityOk tag (FieldList.length (fieldsOf t)) = true)
    (hmk : mkType tag (fieldsOf t) = Option.some t)
    (hbuf : bufs.length = bufferCount t)
    (hnc : nullCountOk (isNullT t) nc len bufs = true)
    (hlen : (exportKids path 1 (fieldsOf t) kids).length = FieldList.length (fieldsOf t))
    (hik : importKids (exportKids path 1 (fieldsOf t) kids)
      = Except.ok (kids, fieldsOf t)) :
    importC (exportNode path nm nb (.mk t len nc off bufs kids .noneA))
      = Except.ok (.mk t len nc off bufs kids .noneA) := by
  have hshape : shapeOk tag len nc bufs
      (exportKids path 1 (fieldsOf t) kids).length = true := by
    rw [shapeOk, hlen, hbc, hbuf, hnt]
    simp [harity, hnc]
  simp only [exportNode, importC, exportDict, importDict, hik,
    assembleImport, htag, hshape, if_true, hmk]

mutual
theorem rt_node : ∀ (a : ArrayData) (path : CapId) (nm : String) (nb : Bool),
    wfArr a = true → importC (exportNode path nm nb a) = Except.ok a
  | .mk t len nc off bufs kids .noneA, path, nm, nb, h => by
    simp only [wfArr, Bool.and_eq_true, beq_iff_eq] at h
    obtain ⟨⟨⟨⟨hbuf, hnc⟩, hcodes⟩, hkids⟩, hdict⟩ := h
    have hlen := exportKids_length (fieldsOf t) kids path 1 hkids
    have hik := rt_kids (fieldsOf t) kids path 1 hkids
    cases t with
    | null =>
      exact rt_noDict _ (.prim .null) path nm nb len nc off bufs kids
        rfl rfl rfl rfl rfl hbuf hnc hlen hik
    | boolean =>
      exact rt_noDict _ (.prim .boolean) path nm nb len nc off bufs kids
        rfl rfl rfl rfl rfl hbuf hnc hlen hik
    | int8 =>
      exact rt_noDict _ (.prim .int8) path nm nb len nc off bufs kids
        rfl rfl rfl rfl rfl hbuf hnc hlen hik
    | uint8 =>
      exact rt_noDict _ (.prim .uint8) path nm nb len nc off bufs kids
        rfl rfl rfl rfl rfl hbuf hnc hlen hik
    | int16 =>
      exact rt_noDict _ (.prim .int16) path nm nb len nc off bufs kids
        rfl rfl rfl rfl rfl hbuf hnc hlen hik
    | uint16 =>
      exact rt_noDict _ (.prim .uint16) path nm nb len nc off bufs kids
        rfl rfl rfl rfl rfl hbuf hnc hlen hik
    | int32 =>
      exact rt_noDict _ (.prim .int32) path nm nb len nc off bufs kids
        rfl rfl rfl rfl rfl hbuf hnc hlen hik
    | uint32 =>
      exact rt_noDict _ (.prim .uint32) path nm nb len nc off bufs kids
        rfl rfl rfl rfl rfl hbuf hnc hlen hik
    | int64 =>
      exact rt_noDict _ (.prim .int64) path nm nb len nc off bufs kids
        rfl rfl rfl rfl rfl hbuf hnc hlen hik
    | uint64 =>
      exact rt_noDict _ (.prim .uint64) path nm nb len nc off bufs kids
        rfl rfl rfl rfl rfl hbuf hnc hlen hik
    | float32 =>
      exact rt_noDict _ (.prim .float32) path nm nb len nc off bufs kids
        rfl rfl rfl rfl rfl hbuf hnc hlen hik
    | float64 =>
      exact rt_noDict _ (.prim .float64) path nm nb len nc off bufs kids
        rfl rfl rfl rfl rfl hbuf hnc hlen hik
    | utf8 =>
      exact rt_noDict _ (.prim .utf8) path nm nb len nc off bufs kids
        rfl rfl rfl rfl rfl hbuf hnc hlen hik
    | largeUtf8 =>
      exact rt_noDict _ (.prim .largeUtf8) path nm nb len nc off bufs kids
        rfl rfl rfl rfl rfl hbuf hnc hlen hik
    | binary =>
      exact rt_noDict _ (.prim .binary) path nm nb len nc off bufs kids
        rfl rfl rfl rfl rfl hbuf hnc hlen hik
    | largeBinary =>
      exact rt_noDict _ (.prim .largeBinary) path nm nb len nc off bufs kids
        rfl rfl rfl rfl rfl hbuf hnc hlen hik
    | fixedSizeBinary w =>
      exact rt_noDict _ (.prim (.fixedSizeBinary w)) path nm nb len nc off bufs kids
        (parseFormat_emit_fsb w) rfl rfl rfl rfl hbuf hnc hlen hik
    | decimal p s =>
      exact rt_noDict _ (.prim (.decimal p s)) path nm nb len nc off bufs kids
        (parseFormat_emit_decimal p s) rfl rfl rfl rfl hbuf hnc hlen hik
    | list nm2 nb2 it =>
      exact rt_noDict _ .listF path nm nb len nc off bufs kids
        rfl rfl rfl rfl rfl hbuf hnc hlen hik
    | largeList nm2 nb2 it =>
      exact rt_noDict _ .largeListF path nm nb len nc off bufs kids
        rfl rfl rfl rfl rfl hbuf hnc hlen hik
    | fixedSizeList nm2 nb2 it n =>
      exact rt_noDict _ (.fixedSizeListF n) path nm nb len nc off bufs kids
        (parseFormat_emit_fsl nm2 nb2 it n) rfl rfl rfl rfl hbuf hnc hlen hik
    | struct fl =>
      exact rt_noDict _ .structF path nm nb len nc off bufs kids
        rfl rfl rfl rfl rfl hbuf hnc hlen hik
    | map k v =>
      exact rt_noDict _ .mapF path nm nb len nc off bufs kids
        rfl rfl rfl rfl rfl hbuf hnc hlen hik
    | sparseUnion codes fl =>
      simp only [codesOk, Bool.and_eq_true, beq_iff_eq, Bool.not_eq_true'] at hcodes
      have hne : codes ≠ [] := by
        intro hnil
        rw [hnil] at hcodes
        simp at hcodes
      exact rt_noDict _ (.sparseUnionF codes) path nm nb len nc off bufs kids
        (parseFormat_emit_sparseUnion codes fl hne) rfl rfl
        (by simp [arityOk, fieldsOf, ← hcodes.2]) rfl hbuf hnc hlen hik
    | denseUnion codes fl =>
      simp only [codesOk, Bool.and_eq_true, beq_iff_eq, Bool.not_eq_true'] at hcodes
      have hne : codes ≠ [] := by
        intro hnil
        rw [hnil] at hcodes
        simp at hcodes
      exact rt_noDict _ (.denseUnionF codes) path nm nb len nc off bufs kids
        (parseFormat_emit_denseUnion codes fl hne) rfl rfl
        (by simp [arityOk, fieldsOf, ← hcodes.2]) rfl hbuf hnc hlen hik
    | dictionary idx val ord => simp [wfDict] at hdict
  | .mk t len nc off bufs kids (.someA d), path, nm, nb, h => by
    simp only [wfArr, Bool.and_eq_true, beq_iff_eq] at h
    obtain ⟨⟨⟨⟨hbuf, hnc⟩, hcodes⟩, hkids⟩, hdict⟩ := h
    cases t <;> simp only [wfDict, Bool.and_eq_true, beq_iff_eq,
      Bool.false_eq_true] at hdict
    rename_i idx val ord
    obtain ⟨⟨hidx, hdt⟩, hwf⟩ := hdict
    cases kids with
    | cons a kr => simp [fieldsOf, wfKids] at hkids
    | nil =>
      have hd := rt_node d (path ++ [0]) "" true hwf
      have hemit : emitFormat (DataType.dictionary idx val ord) = emitFormat idx := by
        rw [emitFormat]
      have hshape : shapeOk (FmtTag.prim idx) len nc bufs 0 = true := by
        simp only [isNullT] at hnc
        simp [shapeOk, tagBufCount, arityOk, isNullTag_of_index idx hidx,
          hnc, hbuf, bufferCount]
      simp only [exportNode, importC, fieldsOf, exportKids, exportDict,
        importDict, importKids, CList.length, assembleImport, hemit,
        parseFormat_emit_index idx hidx, hshape, if_true, hidx, hd]
      rw [hdt, testBit_exportFlags1]
      simp [isOrderedDict]
theorem rt_kids : ∀ (fl : FieldList) (ks : ArrList) (path : CapId) (i : Nat),
    wfKids fl ks = true → importKids (exportKids path i fl ks) = Except.ok (ks, fl)
  | .nil, .nil, _, _, _ => by simp [exportKids, importKids]
  | .nil, .cons _ _, _, _, h => by simp [wfKids] at h
  | .cons _ _ _ _, .nil, _, _, h => by simp [wfKids] at h
  | .cons nm2 nb2 t2 fr, .cons a kr, path, i, h => by
    simp only [wfKids, Bool.and_eq_true, beq_iff_eq] at h
    obtain ⟨⟨hdt, hwa⟩, hkr⟩ := h
    have h1 := rt_node a (path ++ [i]) nm2 nb2 hwa
    have h2 := rt_kids fr kr path (i + 1) hkr
    simp only [exportKids, importKids, h1, h2, combineKid, exportNode_name,
      exportNode_flags, testBit_exportFlags0, hdt]
end

/-! ## Theorems: the release protocol -/

theorem releaseNode_released (c : CArr) (h : c.format = Option.none) :
    releaseNode c = (c, []) := by
  cases c with
  | mk fmt nm meta fl len nc off bufs kids dict cap =>
    simp only [CArr.format] at h
    subst h
    simp [releaseNode, relAssemble]

theorem markReleased_format (c : CArr) : (markReleased c).format = Option.none := by
  cases c
  rfl

theorem markReleased_capsule (c : CArr) : (markReleased c).capsule = Option.none := by
  cases c
  rfl

theorem releaseNode_markReleased (c : CArr) :
    releaseNode (markReleased c) = (markReleased c, []) := by
  cases c
  simp [markReleased, releaseNode, relAssemble]

theorem releaseNode_live_state (c : CArr) (h : isLive c = true) :
    ((releaseNode c).1).format = Option.none
      ∧ ((releaseNode c).1).capsule = Option.none := by
  cases c with
  | mk fmt nm meta fl len nc off bufs kids dict cap =>
    simp only [isLive, CArr.format, Option.isSome] at h
    cases fmt with
    | none => simp at h
    | some f => simp [releaseNode, relAssemble, CArr.format, CArr.capsule]

theorem releaseNode_twice (c : CArr) : (releaseNode ((releaseNode c).1)).2 = [] := by
  cases c with
  | mk fmt nm meta fl len nc off bufs kids dict cap =>
    cases fmt <;> simp [releaseNode, relAssemble]

mutual
theorem releaseLive_trace : ∀ c, allLive c = true → (releaseNode c).2 = allCaps c
  | .mk fmt nm meta fl len nc off bufs kids dict cap, h => by
    simp only [allLive, Bool.and_eq_true] at h
    obtain ⟨⟨hfmt, hkids⟩, hdict⟩ := h
    cases fmt with
    | none => simp [Option.isSome] at hfmt
    | some f =>
      simp [releaseNode, relAssemble, allCaps,
        releaseKidsLive_trace kids hkids, releaseDictLive_trace dict hdict]
theorem releaseKidsLive_trace : ∀ ks, allLiveKids ks = true →
    (releaseKids ks).2 = allCapsKids ks
  | .nil, _ => rfl
  | .cons c rest, h => by
    simp only [allLiveKids, Bool.and_eq_true] at h
    simp [releaseKids, relCons, allCapsKids,
      releaseLive_trace c h.1, releaseKidsLive_trace rest h.2]
theorem releaseDictLive_trace : ∀ o, allLiveDict o = true →
    (releaseDict o).2 = allCapsDict o
  | .noneC, _ => rfl
  | .someC c, h => by
    simp only [allLiveDict] at h
    simp [releaseDict, relSome, allCapsDict, releaseLive_trace c h]
end

theorem releaseKids_set_trace : ∀ (ks : CList) (i : Nat) (c0 : CArr),
    allLiveKids ks = true → ks.get? i = Option.some c0 →
    ∃ pre post, allCapsKids ks = pre ++ (allCaps c0 ++ post) ∧
      (releaseKids (ks.set i (markReleased c0))).2 = pre ++ post
  | .nil, i, c0, _, hg => by simp [CList.get?] at hg
  | .cons c rest, 0, c0, h, hg => by
    simp only [CList.get?, Option.some.injEq] at hg
    subst hg
    simp only [allLiveKids, Bool.and_eq_true] at h
    refine ⟨[], allCapsKids rest, by simp [allCapsKids], ?_⟩
    simp [CList.set, releaseKids, relCons, releaseNode_markReleased,
      releaseKidsLive_trace rest h.2]
  | .cons c rest, i + 1, c0, h, hg => by
    simp only [CList.get?] at hg
    simp only [allLiveKids, Bool.and_eq_true] at h
    obtain ⟨pre, post, he, hr⟩ := releaseKids_set_trace rest i c0 h.2 hg
    refine ⟨allCaps c ++ pre, post, ?_, ?_⟩
    · simp [allCapsKids, he]
    · simp [CList.set, releaseKids, relCons, releaseLive_trace c h.1, hr]

/-! ## Theorems: every exported node's metadata and flags -/

mutual
theorem nodesOf_export : ∀ (a : ArrayData) (path : CapId) (nm : String)
    (nb : Bool) (m : CArr), m ∈ nodesOf (exportNode path nm nb a) →
    m.metadata = Option.none ∧ ∃ p2 n2 nb2 a2,
      m = exportNode p2 n2 nb2 a2 ∧ m.flags = exportFlags nb2 a2.dtype
  | .mk t len nc off bufs kids dict, path, nm, nb, m, hm => by
    simp only [exportNode, nodesOf, List.mem_cons, List.mem_append] at hm
    rcases hm with hm | hm | hm
    · subst hm
      refine ⟨rfl, path, nm, nb, .mk t len nc off bufs kids dict, rfl, rfl⟩
    · exact nodesOfKids_export (fieldsOf t) kids path 1 m hm
    · exact nodesOfDict_export dict path t m hm
theorem nodesOfKids_export : ∀ (fl : FieldList) (ks : ArrList) (path : CapId)
    (i : Nat) (m : CArr), m ∈ nodesOfKids (exportKids path i fl ks) →
    m.metadata = Option.none ∧ ∃ p2 n2 nb2 a2,
      m = exportNode p2 n2 nb2 a2 ∧ m.flags = exportFlags nb2 a2.dtype
  | .nil, ks, path, i, m, hm => by simp [exportKids, nodesOfKids] at hm
  | .cons _ _ _ _, .nil, path, i, m, hm => by simp [exportKids, nodesOfKids] at hm
  | .cons nm2 nb2 t2 fr, .cons a kr, path, i, m, hm => by
    simp only [exportKids, nodesOfKids, List.mem_append] at hm
    rcases hm with hm | hm
    · exact nodesOf_export a (path ++ [i]) nm2 nb2 m hm
    · exact nodesOfKids_export fr kr path (i + 1) m hm
theorem nodesOfDict_export : ∀ (o : ArrOpt) (path : CapId) (t : DataType)
    (m : CArr), m ∈ nodesOfDict (exportDict path t o) →
    m.metadata = Option.none ∧ ∃ p2 n2 nb2 a2,
      m = exportNode p2 n2 nb2 a2 ∧ m.flags = exportFlags nb2 a2.dtype
  | .noneA, path, t, m, hm => by simp [exportDict, nodesOfDict] at hm
  | .someA d, path, t, m, hm => by
    cases t <;> simp only [exportDict, nodesOfDict, List.not_mem_nil] at hm
    exact nodesOf_export d (path ++ [0]) "" true m hm
end

theorem allLiveKids_get : ∀ (ks : CList) (i : Nat) (c0 : CArr),
    allLiveKids ks = true → ks.get? i = Option.some c0 → allLive c0 = true
  | .nil, i, c0, _, hg => by simp [CList.get?] at hg
  | .cons c rest, 0, c0, h, hg => by
    simp only [CList.get?, Option.some.injEq] at hg
    subst hg
    simp only [allLiveKids, Bool.and_eq_true] at h
    exact h.1
  | .cons c rest, i + 1, c0, h, hg => by
    simp only [CList.get?] at hg
    simp only [allLiveKids, Bool.and_eq_true] at h
    exact allLiveKids_get rest i c0 h.2 hg

theorem ImportArray_consumed (c : CArr) :
    (ImportArray c).consumed = markReleased c := by
  cases himp : importC c with
  | error e => simp [ImportArray, himp]
  | ok a =>
    simp only [ImportArray, himp]
    split <;> rfl

theorem countCap_nodup (l : List CapId) (id : CapId) (hn : l.Nodup)
    (hid : id ∈ l) : l.count id = 1 := by
  induction l with
  | nil => simp at hid
  | cons x xs ih =>
    rw [List.count_cons]
    rcases List.mem_cons.mp hid with h | h
    · subst h
      have hx : id ∉ xs := (List.nodup_cons.mp hn).1
      simp [List.count_eq_zero.mpr hx]
    · have hcnt := ih (List.nodup_cons.mp hn).2 h
      have hne : id ≠ x := by
        rintro rfl
        exact (List.nodup_cons.mp hn).1 h
      simp [hcnt, beq_iff_eq, hne, Ne.symm hne]

/-! ## Claim theorems -/

/-- C1: for every well-formed internal array of a supported category
(primitive, string/binary, fixed-width, list/large-list/fixed-size-list,
struct, sparse/dense union, dictionary, nested combinations, with or without
nulls, with or without non-zero offset), importing the exported node succeeds
and yields an array equal to the original — equality is structural, hence
logical equality per category (equal payload per type code for unions; equal
indices, values and ordered flag for dictionary arrays). -/
theorem claim_C1 (a : ArrayData) (path : CapId) (nm : String) (nb : Bool)
    (h : wfArr a = true) :
    (ImportArray (exportNode path nm nb a)).result = Except.ok a := by
  have hok := rt_node a path nm nb h
  simp only [ImportArray, hok]
  split <;> rfl

/-- Witness for C1 at the dictionary fixture (an ordered dictionary of utf8
values with int8 indices). -/
theorem claim_C1_witness :
    wfArr arrayDictEx = true
      ∧ (ImportArray (exportNode [] "" true arrayDictEx)).result
          = Except.ok arrayDictEx :=
  ⟨by decide, claim_C1 arrayDictEx [] "" true (by decide)⟩

/-- C4: after `Move(src, dst)` on a Live node, dst holds all fields src held
(the returned dst is the whole pre-move node, including buffers, children,
dictionary and the release capsule), src is Released with format and capsule
cleared so a later release of src is a no-op, dst behaves identically to the
pre-move node (same import outcome, same release trace), and the nested child
and dictionary structures are unchanged by the move. -/
theorem claim_C4 (src : CArr) (h : isLive src = true) :
    (ArrowMoveArray src).1 = src
      ∧ ((ArrowMoveArray src).2).format = Option.none
      ∧ ((ArrowMoveArray src).2).capsule = Option.none
      ∧ releaseNode ((ArrowMoveArray src).2) = ((ArrowMoveArray src).2, [])
      ∧ ((ArrowMoveArray src).2).children = src.children
      ∧ ((ArrowMoveArray src).2).dictionary = src.dictionary
      ∧ importC ((ArrowMoveArray src).1) = importC src
      ∧ releaseNode ((ArrowMoveArray src).1) = releaseNode src := by
  refine ⟨rfl, markReleased_format src, markReleased_capsule src,
    releaseNode_markReleased src, ?_, ?_, rfl, rfl⟩
  · cases src
    rfl
  · cases src
    rfl

/-- Witness for C4 at the exported int8 fixture. -/
theorem claim_C4_witness :
    isLive (exportNode [] "" true arrayInt8Nulls) = true
      ∧ (ArrowMoveArray (exportNode [] "" true arrayInt8Nulls)).1
          = exportNode [] "" true arrayInt8Nulls
      ∧ ((ArrowMoveArray (exportNode [] "" true arrayInt8Nulls)).2).format
          = Option.none :=
  ⟨by decide, (claim_C4 _ (by decide)).1, (claim_C4 _ (by decide)).2.1⟩

/-- C7: exporting the 8-bit integer array [1, 2, null, -3] produces a node
with format "c", 2 buffers, null count 1, offset 0, length 4, and a data
buffer (buffers[1]) equal to the source array's data buffer — the buffer list
is the source's own buffer list, aliased without duplication. -/
theorem claim_C7 :
    (exportNode [] "" true arrayInt8Nulls).format = Option.some ['c']
      ∧ ((exportNode [] "" true arrayInt8Nulls).buffers).length = 2
      ∧ (exportNode [] "" true arrayInt8Nulls).nullCount = 1
      ∧ (exportNode [] "" true arrayInt8Nulls).offset = 0
      ∧ (exportNode [] "" true arrayInt8Nulls).length = 4
      ∧ (exportNode [] "" true arrayInt8Nulls).buffers
          = arrayInt8Nulls.buffers
      ∧ ((exportNode [] "" true arrayInt8Nulls).buffers).get? 1
          = Option.some (Option.some [1, 2, 0, 253]) := by
  decide

/-- C8: the two-state lifecycle: a node is Live iff its format is non-null;
release and Move transition to Released with format and capsule (release and
private data) cleared; Released is terminal under every modelled operation
(release is a no-op, a move keeps both sides Released, import consumes but
does not revive); and Import applied to an already Released node is rejected
with an error rather than dereferenced. -/
theorem claim_C8 :
    (∀ c : CArr, isLive c = true ↔ c.format ≠ Option.none)
      ∧ (∀ c : CArr, isLive c = true →
          ((releaseNode c).1).format = Option.none
            ∧ ((releaseNode c).1).capsule = Option.none)
      ∧ (∀ c : CArr, ((ArrowMoveArray c).2).format = Option.none
          ∧ ((ArrowMoveArray c).2).capsule = Option.none)
      ∧ (∀ c : CArr, c.format = Option.none →
          releaseNode c = (c, [])
            ∧ ((ArrowMoveArray c).1).format = Option.none
            ∧ ((ArrowMoveArray c).2).format = Option.none
            ∧ ((ImportArray c).consumed).format = Option.none)
      ∧ (∀ c : CArr, c.format = Option.none →
          (ImportArray c).result = Except.error "released") := by
  have himp : ∀ c : CArr, c.format = Option.none →
      importC c = Except.error "released" := by
    intro c h
    cases c with
    | mk fmt nm meta fl len nc off bufs kids dict cap =>
      simp only [CArr.format] at h
      subst h
      simp [importC, assembleImport]
  refine ⟨?_, ?_, ?_, ?_, ?_⟩
  · intro c
    simp [isLive, Option.isSome_iff_ne_none]
  · intro c h
    exact releaseNode_live_state c h
  · intro c
    exact ⟨markReleased_format c, markReleased_capsule c⟩
  · intro c h
    refine ⟨releaseNode_released c h, h, markReleased_format c, ?_⟩
    rw [ImportArray_consumed]
    exact markReleased_format c
  · intro c h
    simp [ImportArray, himp c h]

/-- Witness for C8 at a released node (the moved-out side of a move). -/
theorem claim_C8_witness :
    (markReleased (exportNode [] "" true arrayInt8Nulls)).format = Option.none
      ∧ (ImportArray (markReleased (exportNode [] "" true arrayInt8Nulls))).result
          = Except.error "released" :=
  ⟨by decide, claim_C8.2.2.2.2 (markReleased (exportNode [] "" true arrayInt8Nulls))
    (by decide)⟩

/-- C9: parent and child offsets compose independently: importing "+l" with
offsets [0, 2, 2, 5, 6, 8], parent length 4 and offset 1 over an int8 child
with offset 2 into data [1..16] yields [[], [5, 6, 7], [8], [9, 10]]; the
analogous composition holds for a fixed-size-list parent (yielding
[[6, 7, 8], [9, 10, 11], [12, 13, 14]]) and for struct children (yielding
[["", 4], ["bar", 5], ["quux", 6]]). -/
theorem claim_C9 :
    Except.map (valuesOf 100) (importC c9listNode)
        = Except.ok (Option.some (vals
          [.listV (vals []),
           .listV (vals [.intV 5, .intV 6, .intV 7]),
           .listV (vals [.intV 8]),
           .listV (vals [.intV 9, .intV 10])]))
      ∧ Except.map (valuesOf 100) (importC c9fslNode)
        = Except.ok (Option.some (vals
          [.listV (vals [.intV 6, .intV 7, .intV 8]),
           .listV (vals [.intV 9, .intV 10, .intV 11]),
           .listV (vals [.intV 12, .intV 13, .intV 14])]))
      ∧ Except.map (valuesOf 100) (importC c9structNode)
        = Except.ok (Option.some (vals
          [.structV (vals [.bytesV [], .intV 4]),
           .structV (vals [.bytesV [98, 97, 114], .intV 5]),
           .structV (vals [.bytesV [113, 117, 117, 120], .intV 6])])) := by
  refine ⟨?_, ?_, ?_⟩ <;> decide

/-- C10: every node of an exported tree has null metadata and carries exactly
the flags of its field: the NULLABLE bit iff the field is nullable, the
ORDERED bit iff the node's array is an ordered dictionary (so it is set on
the top node of an ordered dictionary-encoded array and clear elsewhere). -/
theorem claim_C10 (a : ArrayData) (path : CapId) (nm : String) (nb : Bool)
    (m : CArr) (hm : m ∈ nodesOf (exportNode path nm nb a)) :
    m.metadata = Option.none
      ∧ ∃ p2 n2 nb2 a2, m = exportNode p2 n2 nb2 a2
          ∧ m.flags = exportFlags nb2 a2.dtype
          ∧ Nat.testBit m.flags 0 = nb2
          ∧ Nat.testBit m.flags 1 = isOrderedDict a2.dtype := by
  obtain ⟨hmeta, p2, n2, nb2, a2, hm2, hf⟩ := nodesOf_export a path nm nb m hm
  exact ⟨hmeta, p2, n2, nb2, a2, hm2, hf,
    by rw [hf, testBit_exportFlags0], by rw [hf, testBit_exportFlags1]⟩

/-- Witness for C10 at the top node of the exported ordered dictionary. -/
theorem claim_C10_witness :
    (exportNode [] "" true arrayDictEx).metadata = Option.none
      ∧ ∃ p2 n2 nb2 a2, exportNode [] "" true arrayDictEx = exportNode p2 n2 nb2 a2
          ∧ (exportNode [] "" true arrayDictEx).flags = exportFlags nb2 a2.dtype
          ∧ Nat.testBit (exportNode [] "" true arrayDictEx).flags 0 = nb2
          ∧ Nat.testBit (exportNode [] "" true arrayDictEx).flags 1
              = isOrderedDict a2.dtype :=
  claim_C10 arrayDictEx [] "" true (exportNode [] "" true arrayDictEx) (by decide)

/-- C2: for every exported (all-Live, distinct-capsule) node tree and each of
the four operation sequences — explicit release of the top node, Move then
release at the new location, drop of the last reference to an imported array,
parent release after one child has been moved out — every underlying release
capsule fires exactly once, never twice (a repeated release fires nothing,
and the moved-out source, already format-null, fires nothing). -/
theorem claim_C2 (c : CArr) (hlive : allLive c = true)
    (hnodup : (allCaps c).Nodup) :
    ((∀ id ∈ allCaps c, ((releaseNode c).2).count id = 1)
        ∧ (releaseNode ((releaseNode c).1)).2 = [])
      ∧ ((releaseNode ((ArrowMoveArray c).2)).2 = []
          ∧ ∀ id ∈ allCaps c, ((releaseNode ((ArrowMoveArray c).1)).2).count id = 1)
      ∧ (∀ a, (ImportArray c).result = Except.ok a →
          ∀ id ∈ allCaps c,
            ((ImportArray c).firedNow ++ (ImportArray c).deferredFire).count id = 1)
      ∧ (∀ i c0, (c.children).get? i = Option.some c0 →
          ∀ id ∈ allCaps c,
            (((releaseNode (moveChildOut c i).1).2 ++ (releaseNode c0).2).count id
              = 1)) := by
  have htr : (releaseNode c).2 = allCaps c := releaseLive_trace c hlive
  have hone : ∀ id ∈ allCaps c, (allCaps c).count id = 1 := fun id hid =>
    countCap_nodup (allCaps c) id hnodup hid
  refine ⟨⟨?_, releaseNode_twice c⟩, ⟨?_, ?_⟩, ?_, ?_⟩
  · intro id hid
    rw [htr]
    exact hone id hid
  · rw [show (ArrowMoveArray c).2 = markReleased c from rfl,
      releaseNode_markReleased]
  · intro id hid
    rw [show (ArrowMoveArray c).1 = c from rfl, htr]
    exact hone id hid
  · intro a ha id hid
    cases himp : importC c with
    | error e => simp [ImportArray, himp] at ha
    | ok a2 =>
      simp only [ImportArray, himp]
      by_cases hn : c.format = Option.some ['n'] <;>
        simp [hn, htr, hone id hid]
  · intro i c0 hg id hid
    have h1 : (allCaps c).count id = 1 := hone id hid
    cases c with
    | mk fmt nm meta fl len nc off bufs kids dict cap =>
      simp only [allLive, Bool.and_eq_true] at hlive
      obtain ⟨⟨hfmt, hkids⟩, hdict⟩ := hlive
      simp only [CArr.children] at hg
      obtain ⟨pre, post, he, hr⟩ := releaseKids_set_trace kids i c0 hkids hg
      have hc0live : allLive c0 = true := allLiveKids_get kids i c0 hkids hg
      have hc0 : (releaseNode c0).2 = allCaps c0 := releaseLive_trace c0 hc0live
      have hD : (releaseDict dict).2 = allCapsDict dict :=
        releaseDictLive_trace dict hdict
      have hmove : (moveChildOut
          (CArr.mk fmt nm meta fl len nc off bufs kids dict cap) i).1
          = setChild (CArr.mk fmt nm meta fl len nc off bufs kids dict cap) i
            (markReleased c0) := by
        simp [moveChildOut, CArr.children, hg]
      rw [hmove]
      cases fmt with
      | none => simp [Option.isSome] at hfmt
      | some f =>
        simp only [setChild, releaseNode, relAssemble, hr, hD, hc0]
        rw [allCaps, he] at h1
        simp only [List.count_append] at h1 ⊢
        omega

/-- Witness for C2 at the exported list fixture. -/
theorem claim_C2_witness :
    allLive (exportNode [] "" true arrayListEx) = true
      ∧ (allCaps (exportNode [] "" true arrayListEx)).Nodup
      ∧ ((releaseNode ((releaseNode (exportNode [] "" true arrayListEx)).1)).2
          = []) :=
  ⟨by decide, by decide,
    (claim_C2 (exportNode [] "" true arrayListEx) (by decide) (by decide)).1.2⟩

/-- C3: Import consumes the input node in every case (the consumed node is
observed Released); on any validation failure at any level it returns the
error, fires the node's release on the spot — under the exported-tree
invariants, each capsule of the tree (children included) exactly once — and
produces no array. -/
theorem claim_C3 (c : CArr) :
    ((ImportArray c).consumed).format = Option.none
      ∧ (∀ e, importC c = Except.error e →
          (ImportArray c).result = Except.error e
            ∧ (ImportArray c).firedNow = (releaseNode c).2
            ∧ (allLive c = true → (allCaps c).Nodup →
                ∀ id ∈ allCaps c, ((ImportArray c).firedNow).count id = 1)) := by
  constructor
  · rw [ImportArray_consumed]
    exact markReleased_format c
  · intro e he
    refine ⟨?_, ?_, ?_⟩
    · simp [ImportArray, he]
    · simp [ImportArray, he]
    · intro hl hn id hid
      simp only [ImportArray, he]
      rw [releaseLive_trace c hl]
      exact countCap_nodup (allCaps c) id hn hid

/-- Witness for C3 at a node with the malformed format "cc". -/
theorem claim_C3_witness :
    ((ImportArray (primNode ['c', 'c'] 3 0 0
        [Option.none, Option.some dataBuffer1])).consumed).format = Option.none
      ∧ (ImportArray (primNode ['c', 'c'] 3 0 0
          [Option.none, Option.some dataBuffer1])).result
        = Except.error "invalid format string" :=
  ⟨(claim_C3 (primNode ['c', 'c'] 3 0 0
      [Option.none, Option.some dataBuffer1])).1,
    ((claim_C3 (primNode ['c', 'c'] 3 0 0
      [Option.none, Option.some dataBuffer1])).2 "invalid format string"
      (by decide)).1⟩

/-- C5: all six malformed format strings of the test suite — "cc" (extra
character), "w3", "w:three", "w:3,5" (malformed fixed-width parameter),
"d:15", "d:15.4" (malformed decimal parameters) — are rejected by the codec,
and importing any node whose format string does not parse yields an Invalid
error while still consuming and releasing the node. -/
theorem claim_C5 :
    parseFormat ['c', 'c'] = Option.none
      ∧ parseFormat ['w', '3'] = Option.none
      ∧ parseFormat ['w', ':', 't', 'h', 'r', 'e', 'e'] = Option.none
      ∧ parseFormat ['w', ':', '3', ',', '5'] = Option.none
      ∧ parseFormat ['d', ':', '1', '5'] = Option.none
      ∧ parseFormat ['d', ':', '1', '5', '.', '4'] = Option.none
      ∧ ∀ (c : CArr) (f : List Char), c.format = Option.some f →
          parseFormat f = Option.none →
          (ImportArray c).result = Except.error "invalid format string"
            ∧ ((ImportArray c).consumed).format = Option.none
            ∧ (ImportArray c).firedNow = (releaseNode c).2 := by
  refine ⟨by decide, by decide, by decide, by decide, by decide, by decide, ?_⟩
  intro c f hf hp
  have himp : importC c = Except.error "invalid format string" := by
    cases c with
    | mk fmt nm meta fl len nc off bufs kids dict cap =>
      simp only [CArr.format] at hf
      subst hf
      simp [importC, assembleImport, hp]
  refine ⟨?_, ?_, ?_⟩
  · simp [ImportArray, himp]
  · rw [ImportArray_consumed]
    exact markReleased_format c
  · simp [ImportArray, himp]

/-- Witness for C5 at the node with format "cc". -/
theorem claim_C5_witness :
    (ImportArray (primNode ['c', 'c'] 3 0 0
        [Option.none, Option.some dataBuffer1])).result
      = Except.error "invalid format string" :=
  (claim_C5.2.2.2.2.2.2 (primNode ['c', 'c'] 3 0 0
    [Option.none, Option.some dataBuffer1]) ['c', 'c'] rfl (by decide)).1

theorem nullCountOk_neg1 (b : Bool) (len : Nat) (bufs : List (Option Buffer)) :
    nullCountOk b (-1) len bufs = true := by
  rw [nullCountOk]
  split
  · rfl
  · have h : ¬((0 : Int) < -1 ∧ bufs.head? = Option.some Option.none ∧ len ≠ 0) := by
      rintro ⟨h0, _⟩
      omega
    rw [if_neg h]

theorem nullCountOk_computed (b : Bool) (len off : Nat)
    (bufs : List (Option Buffer)) :
    nullCountOk b ((computedNullCount bufs off len : Nat) : Int) len bufs
      = true := by
  rw [nullCountOk]
  split
  · rfl
  · split
    · rename_i hcond
      obtain ⟨h0, hhead, _⟩ := hcond
      rw [computedNullCount, hhead] at h0
      simp at h0
    · rfl

theorem resolve_neg1 (t : DataType) (len : Nat) (off : Nat)
    (bufs : List (Option Buffer)) (kids : ArrList) (dict : ArrOpt) :
    resolveNullCount (.mk t len (-1) off bufs kids dict)
      = resolveNullCount
        (.mk t len ((computedNullCount bufs off len : Nat) : Int) off bufs kids dict) := by
  rw [resolveNullCount, resolveNullCount]
  have hne : ((computedNullCount bufs off len : Nat) : Int) ≠ -1 := by omega
  simp [hne]

theorem assembleImport_nc (f : List Char) (flags : Nat) (len : Nat) (off : Nat)
    (bufs : List (Option Buffer)) (nKids : Nat)
    (kres : Except String (ArrList × FieldList))
    (dres : Option (Except String ArrayData)) :
    Except.map resolveNullCount
        (assembleImport (Option.some f) flags len (-1) off bufs nKids kres dres)
      = Except.map resolveNullCount
        (assembleImport (Option.some f) flags len
          ((computedNullCount bufs off len : Nat) : Int) off bufs nKids kres dres) := by
  cases hp : parseFormat f with
  | none => simp [assembleImport, hp]
  | some tag =>
    simp only [assembleImport, hp]
    have hsh : shapeOk tag len ((computedNullCount bufs off len : Nat) : Int) bufs nKids
        = shapeOk tag len (-1) bufs nKids := by
      rw [shapeOk, shapeOk, nullCountOk_neg1, nullCountOk_computed]
    rw [hsh]
    by_cases hs : shapeOk tag len (-1) bufs nKids = true
    · rw [if_pos hs, if_pos hs]
      cases kres with
      | error e => rfl
      | ok pr =>
        obtain ⟨karr, kfl⟩ := pr
        cases dres with
        | none =>
          cases hmk : mkType tag kfl with
          | none => simp [hmk]
          | some t => simp [hmk, Except.map, resolve_neg1]
        | some dres2 =>
          cases tag with
          | prim t =>
            by_cases hit : isIndexType t = true
            · simp only [hit, if_true]
              cases dres2 with
              | error e => rfl
              | ok dv => simp [Except.map, resolve_neg1]
            · simp only [Bool.not_eq_true] at hit
              simp [hit]
          | listF => rfl
          | largeListF => rfl
          | fixedSizeListF n => rfl
          | structF => rfl
          | mapF => rfl
          | sparseUnionF codes => rfl
          | denseUnionF codes => rfl
    · rw [if_neg hs, if_neg hs]

/-- C6: the importer's null-count validation: a node with positive null
count, a null validity buffer and non-zero length is rejected (for every
non-null-type format tag); a null count of -1 (unknown) is accepted, and
importing with -1 yields an array logically equal — equal after resolving the
deferred null count from the validity bitmap — to importing the same node
with the exact computed null count; and a buffer count different from the
category's (e.g. one buffer for a primitive, which needs two) is rejected. -/
theorem claim_C6 :
    (∀ (c : CArr) (f : List Char) (tag : FmtTag),
        c.format = Option.some f → parseFormat f = Option.some tag →
        isNullTag tag = false → 0 < c.nullCount →
        (c.buffers).head? = Option.some Option.none → c.length ≠ 0 →
        (ImportArray c).result = Except.error "invalid shape")
      ∧ (∀ (fmt : Option (List Char)) (nm : String) (meta : Option String)
          (fl : Nat) (len : Nat) (off : Nat) (bufs : List (Option Buffer))
          (kids : CList) (dict : COpt) (cap : Option CapId),
          Except.map resolveNullCount
              (importC (.mk fmt nm meta fl len (-1) off bufs kids dict cap))
            = Except.map resolveNullCount
              (importC (.mk fmt nm meta fl len
                ((computedNullCount bufs off len : Nat) : Int) off bufs kids
                dict cap)))
      ∧ (∀ (c : CArr) (f : List Char) (tag : FmtTag),
          c.format = Option.some f → parseFormat f = Option.some tag →
          (c.buffers).length ≠ tagBufCount tag →
          (ImportArray c).result = Except.error "invalid shape") := by
  refine ⟨?_, ?_, ?_⟩
  · intro c f tag hf hp hnt hpos hhead hlen
    have himp : importC c = Except.error "invalid shape" := by
      cases c with
      | mk fmt nm meta fl len nc off bufs kids dict cap =>
        simp only [CArr.format] at hf
        simp only [CArr.nullCount] at hpos
        simp only [CArr.buffers] at hhead
        simp only [CArr.length] at hlen
        subst hf
        have hnco : nullCountOk (isNullTag tag) nc len bufs = false := by
          rw [hnt, nullCountOk]
          simp only [Bool.false_eq_true, if_false]
          rw [if_pos ⟨hpos, hhead, hlen⟩]
        have hsh : shapeOk tag len nc bufs kids.length = false := by
          simp [shapeOk, hnco]
        simp [importC, assembleImport, hp, hsh]
    simp [ImportArray, himp]
  · intro fmt nm meta fl len off bufs kids dict cap
    cases fmt with
    | none => rfl
    | some f =>
      simp only [importC]
      exact assembleImport_nc f fl len off bufs kids.length
        (importKids kids) (importDict dict)
  · intro c f tag hf hp hbad
    have himp : importC c = Except.error "invalid shape" := by
      cases c with
      | mk fmt nm meta fl len nc off bufs kids dict cap =>
        simp only [CArr.format] at hf
        simp only [CArr.buffers] at hbad
        subst hf
        have hsh : shapeOk tag len nc bufs kids.length = false := by
          rw [shapeOk]
          have hb : (bufs.length == tagBufCount tag) = false := by
            simpa using hbad
          simp [hb]
        simp [importC, assembleImport, hp, hsh]
    simp [ImportArray, himp]

/-- Witness for C6: a primitive node with null count 1 but no validity buffer
is rejected; importing with null count -1 equals importing with the computed
count 2 for the fixture bitmap; one buffer for a primitive is rejected. -/
theorem claim_C6_witness :
    (ImportArray (primNode ['c'] 3 1 0
        [Option.none, Option.some dataBuffer1])).result
      = Except.error "invalid shape"
      ∧ Except.map resolveNullCount
          (importC (.mk (Option.some ['c']) "" Option.none 1 9 (-1) 0
            [Option.some bitsBuffer1, Option.some dataBuffer1] .nil .noneC
            (Option.some [0])))
        = Except.map resolveNullCount
          (importC (.mk (Option.some ['c']) "" Option.none 1 9
            ((computedNullCount
              [Option.some bitsBuffer1, Option.some dataBuffer1] 0 9 : Nat) : Int)
            0 [Option.some bitsBuffer1, Option.some dataBuffer1] .nil .noneC
            (Option.some [0])))
      ∧ (ImportArray (primNode ['c'] 3 0 0 [Option.none])).result
        = Except.error "invalid shape" :=
  ⟨claim_C6.1 (primNode ['c'] 3 1 0 [Option.none, Option.some dataBuffer1])
      ['c'] (.prim .int8) rfl (by decide) (by decide) (by decide) (by decide)
      (by decide),
    claim_C6.2.1 (Option.some ['c']) "" Option.none 1 9 0
      [Option.some bitsBuffer1, Option.some dataBuffer1] .nil .noneC
      (Option.some [0]),
    claim_C6.2.2 (primNode ['c'] 3 0 0 [Option.none]) ['c'] (.prim .int8)
      rfl (by decide) (by decide)⟩

end ArrowC
